import Mathlib

/-!
Verification development for `dsr/gp.py`: genetic-programming search with
per-individual constant optimization, early stopping, hall-of-fame tracking,
an injection-capable individual generator, and a fitness metric factory.

Numeric conventions: the metric factory is stated over the real numbers
(the source computes with floating point; `np.sqrt` becomes an abstract
square-root parameter, instantiated with `Real.sqrt`).  The evaluator and
the generational algorithm are embedded over `ℚ` so that every definition
is executable on concrete inputs.
-/

namespace DSR

/-- Arithmetic mean of a list, `np.mean`. -/
def mean {α : Type} [Field α] (xs : List α) : α :=
  xs.sum / (xs.length : α)

/-- Population variance of a list, `np.var` (default `ddof=0`). -/
def variance {α : Type} [Field α] (xs : List α) : α :=
  mean (xs.map (fun x => (x - mean xs) ^ 2))

/-- `mse = mean((y - y_hat)**2)`, elementwise over equal-length vectors. -/
def mse {α : Type} [Field α] (y y_hat : List α) (_var_y : α) : α :=
  mean (List.zipWith (fun a b => (a - b) ^ 2) y y_hat)

/-- `rmse = sqrt(mean((y - y_hat)**2))`; `sqrt` abstracts `np.sqrt`. -/
def rmse {α : Type} [Field α] (sqrt : α → α) (y y_hat : List α) (_var_y : α) : α :=
  sqrt (mean (List.zipWith (fun a b => (a - b) ^ 2) y y_hat))

/-- `nmse = mean((y - y_hat)**2 / var_y)`. -/
def nmse {α : Type} [Field α] (y y_hat : List α) (var_y : α) : α :=
  mean (List.zipWith (fun a b => (a - b) ^ 2 / var_y) y y_hat)

/-- `nrmse = sqrt(mean((y - y_hat)**2 / var_y))`. -/
def nrmse {α : Type} [Field α] (sqrt : α → α) (y y_hat : List α) (var_y : α) : α :=
  sqrt (mean (List.zipWith (fun a b => (a - b) ^ 2 / var_y) y y_hat))

/-- `make_fitness(metric)` from `gp.py`: maps a metric name to the loss
function of `(y, y_hat, var_y)`, raising `ValueError("Metric not recognized.")`
for any unrecognized name. -/
def make_fitness {α : Type} [Field α] (sqrt : α → α) (metric : String) :
    Except String (List α → List α → α → α) :=
  if metric = "mse" then
    Except.ok (mse : List α → List α → α → α)
  else if metric = "rmse" then
    Except.ok (rmse sqrt)
  else if metric = "nmse" then
    Except.ok (nmse : List α → List α → α → α)
  else if metric = "nrmse" then
    Except.ok (nrmse sqrt)
  else
    Except.error "Metric not recognized."

/-- One node of a prefix-linearized expression tree: a name (operators,
input variables, or the constant tag `"const"`) and, for constant terminals,
the attached numeric value (`gp.Terminal(value, False, object)`). -/
structure Node where
  name : String
  value : ℚ
deriving DecidableEq

/-- `deap.gp.PrimitiveTree`: an individual is the list of its nodes. -/
abbrev Individual := List Node

/-- The part of the DEAP toolbox the evaluator uses: `toolbox.compile`
turns an individual into a callable, here given the input columns directly
and returning the predicted vector `y_hat`. -/
structure Toolbox where
  compile : Individual → List (List ℚ) → List ℚ

/-- The dataset collaborator: train/test input matrices and target vectors. -/
structure Dataset where
  X_train : List (List ℚ)
  X_test : List (List ℚ)
  y_train : List ℚ
  y_test : List ℚ

/-- State of `GenericEvaluate` (`gp.py` lines 149-212).  `hof` holds the
hall-of-fame items (individuals, best first), as `self.hof[0]` reads them. -/
structure GenericEvaluate where
  toolbox : Option Toolbox
  const_opt : (List ℚ → ℚ) → List ℚ → List ℚ
  hof : List Individual
  X_train : List (List ℚ)
  X_test : List (List ℚ)
  y_train : List ℚ
  optimize : Bool
  early_stopping : Bool
  threshold : ℚ
  train_fitness : List ℚ → ℚ
  test_fitness : List ℚ → ℚ

/-- `GenericEvaluate.__init__`: binds `make_fitness("nmse")` partially to the
train and test targets and their variances; transposes the input matrices;
the toolbox is unset until `set_toolbox`. -/
def GenericEvaluate.init (const_opt : (List ℚ → ℚ) → List ℚ → List ℚ)
    (hof : List Individual) (dataset : Dataset)
    (optimize early_stopping : Bool) (threshold : ℚ) : GenericEvaluate :=
  let fitness : List ℚ → List ℚ → ℚ → ℚ :=
    match make_fitness (α := ℚ) id "nmse" with
    | Except.ok f => f
    | Except.error _ => fun _ _ _ => 0
  { toolbox := none
    const_opt := const_opt
    hof := hof
    X_train := dataset.X_train.transpose
    X_test := dataset.X_test.transpose
    y_train := dataset.y_train
    optimize := optimize
    early_stopping := early_stopping
    threshold := threshold
    train_fitness := fun y_hat => fitness dataset.y_train y_hat (variance dataset.y_train)
    test_fitness := fun y_hat => fitness dataset.y_test y_hat (variance dataset.y_test) }

/-- `GenericEvaluate.set_toolbox`. -/
def GenericEvaluate.set_toolbox (s : GenericEvaluate) (tb : Toolbox) : GenericEvaluate :=
  { s with toolbox := some tb }

/-- `GenericEvaluate._finish_eval`: compile the individual, run it on the
input columns, and apply the bound fitness function (the source returns the
1-tuple `(fitness(y_hat),)`; we return the single component). -/
def GenericEvaluate.finishEval (tb : Toolbox) (individual : Individual)
    (X : List (List ℚ)) (fitness : List ℚ → ℚ) : ℚ :=
  fitness (tb.compile individual X)

/-- `[i for i, node in enumerate(individual) if node.name == "const"]`
(the enumeration indices whose node carries the constant tag). -/
def constIdxs (individual : Individual) : List ℕ :=
  (List.range individual.length).filter
    (fun i => decide ((individual.get? i).map Node.name = some "const"))

/-- `for i, const in zip(const_idxs, consts): individual[i] = Terminal(const);
individual[i].name = "const"` — write the constants back in place at the slot
positions (Python `zip` truncates to the shorter list). -/
def writeConsts (individual : Individual) (idxs : List ℕ) (consts : List ℚ) : Individual :=
  (idxs.zip consts).foldl (fun ind p => ind.set p.1 ⟨"const", p.2⟩) individual

/-- The closure `obj(consts)` built inside `GenericEvaluate.__call__`:
rewrite the slots with `consts`, execute on the training inputs, and return
the mean squared residual against the training targets. -/
def GenericEvaluate.constObjective (s : GenericEvaluate) (tb : Toolbox)
    (individual : Individual) (consts : List ℚ) : ℚ :=
  let ind2 := writeConsts individual (constIdxs individual) consts
  mean (List.zipWith (fun a b => (a - b) ^ 2) s.y_train (tb.compile ind2 s.X_train))

/-- The early-stop test of `__call__`: `self.early_stopping and
len(self.hof) > 0 and self._finish_eval(self.hof[0], self.X_test,
self.test_fitness)[0] < self.threshold` (short-circuit conjunction). -/
def GenericEvaluate.earlyStopHit (s : GenericEvaluate) (tb : Toolbox) : Bool :=
  s.early_stopping &&
    (match s.hof with
     | hof0 :: _ =>
         decide (GenericEvaluate.finishEval tb hof0 s.X_test s.test_fitness < s.threshold)
     | [] => false)

/-- Result of one `GenericEvaluate.__call__`: the returned fitness value, the
(possibly constant-rewritten, in-place mutated) individual, whether the
constant optimizer was invoked, and whether the hall-of-fame incumbent was
tested against the early-stopping threshold. -/
structure EvalResult where
  fitness : ℚ
  individual : Individual
  optimizerCalled : Bool
  hofTested : Bool
deriving DecidableEq

/-- `GenericEvaluate.__call__` (`gp.py` lines 175-208).  Returns `none` when
the toolbox is unset (the source asserts `self.toolbox is not None`). -/
def GenericEvaluate.call (s : GenericEvaluate) (individual : Individual) :
    Option EvalResult :=
  match s.toolbox with
  | none => none
  | some tb =>
    if s.optimize then
      let const_idxs := constIdxs individual
      let hofTested := s.early_stopping && !s.hof.isEmpty
      if s.earlyStopHit tb then
        some ⟨1, individual, false, hofTested⟩
      else if const_idxs.isEmpty then
        some ⟨GenericEvaluate.finishEval tb individual s.X_train s.train_fitness,
              individual, false, hofTested⟩
      else
        let x0 := List.replicate const_idxs.length (1 : ℚ)
        let optimized_consts := s.const_opt (s.constObjective tb individual) x0
        let ind2 := writeConsts individual const_idxs optimized_consts
        some ⟨GenericEvaluate.finishEval tb ind2 s.X_train s.train_fitness,
              ind2, true, hofTested⟩
    else
      some ⟨GenericEvaluate.finishEval tb individual s.X_train s.train_fitness,
            individual, false, false⟩

/-- A population member over an individual representation `ι`: the individual
together with its mutable fitness slot.  `none` models DEAP's invalid
(deleted / never assigned) fitness; `some v` a valid single-objective value
(the source's 1-tuple `(v,)`, minimized). -/
structure Member (ι : Type) where
  ind : ι
  fitness : Option ℚ
deriving DecidableEq

instance {ι : Type} [Inhabited ι] : Inhabited (Member ι) :=
  ⟨⟨default, none⟩⟩

/-- Modelled from the spec: the hall of fame lives in the external DEAP
library (`tools.HallOfFame`), not in this repository.  The spec describes it
as a bounded (`maxsize`) ordered collection of the best-ever individuals by
fitness, updated from every evaluated population. -/
structure HallOfFame (ι : Type) where
  maxsize : ℕ
  items : List (Member ι)

/-- Modelled from the spec: `HallOfFame.update(population)` keeps the best
`maxsize` members (lowest loss first) among the current items and the new
population. -/
def HallOfFame.update {ι : Type} (h : HallOfFame ι) (population : List (Member ι)) :
    HallOfFame ι :=
  { h with
    items :=
      ((h.items ++ population).insertionSort
        (fun a b => a.fitness.getD 0 ≤ b.fitness.getD 0)).take h.maxsize }

/-- Modelled from the spec: Python's seeded global `random` source is
external; the spec requires only that the whole stream be a deterministic
function of the seed.  A linear congruential generator suffices. -/
structure RNG where
  state : ℕ
deriving DecidableEq

/-- Modelled from the spec: one draw of `random.random()`, a rational in
`[0, 1)`, together with the advanced generator state. -/
def RNG.next (r : RNG) : ℚ × RNG :=
  let s := (r.state * 1103515245 + 12345) % 2147483648
  ((s : ℚ) / 2147483648, ⟨s⟩)

/-- Modelled from the spec: one uniform draw of an index below `n`. -/
def RNG.nextNat (r : RNG) (n : ℕ) : ℕ × RNG :=
  let s := (r.state * 1103515245 + 12345) % 2147483648
  (s % n, ⟨s⟩)

/-- `GenericAlgorithm._eval(population, halloffame)` (`gp.py` lines 68-81):
collect the members with invalid fitness, evaluate exactly those, assign
their fitness in place, then update the hall of fame (when supplied) from
the full population; return the population, the hall of fame, and the list
of (now evaluated) originally-invalid members. -/
def evalInvalid {ι : Type} (evaluate : ι → ℚ) (population : List (Member ι))
    (halloffame : Option (HallOfFame ι)) :
    List (Member ι) × Option (HallOfFame ι) × List (Member ι) :=
  let invalid_ind := population.filter (fun m => m.fitness.isNone)
  let population2 := population.map (fun m =>
    match m.fitness with
    | some _ => m
    | none => { m with fitness := some (evaluate m.ind) })
  let evaluated := invalid_ind.map (fun m => { m with fitness := some (evaluate m.ind) })
  let halloffame2 := halloffame.map (fun h => h.update population2)
  (population2, halloffame2, evaluated)

/-- The operator part of the DEAP toolbox the generational loop uses:
per-individual evaluation, crossover, mutation, and the tournament size. -/
structure GAToolbox (ι : Type) where
  evaluate : ι → ℚ
  mate : ι → ι → ι × ι
  mutate : ι → ι
  tournsize : ℕ

/-- Modelled from the spec: one tournament draw (DEAP `tools.selRandom`
picks a population member uniformly with replacement). -/
def selRandomOne {ι : Type} [Inhabited ι] (population : List (Member ι)) (r : RNG) :
    Member ι × RNG :=
  let p := r.nextNat population.length
  (population.getD p.1 default, p.2)

/-- Modelled from the spec: draw `t` tournament contenders with replacement. -/
def drawContenders {ι : Type} [Inhabited ι] (population : List (Member ι)) :
    ℕ → RNG → List (Member ι) × RNG
  | 0, r => ([], r)
  | t + 1, r =>
    let p := selRandomOne population r
    let rest := drawContenders population t p.2
    (p.1 :: rest.1, rest.2)

/-- Modelled from the spec: the tournament winner is the contender with the
lowest loss (minimization; the first such contender wins ties). -/
def tournamentBest {ι : Type} [Inhabited ι] (contenders : List (Member ι)) : Member ι :=
  match contenders with
  | [] => default
  | c :: rest =>
    rest.foldl (fun b m => if m.fitness.getD 0 < b.fitness.getD 0 then m else b) c

/-- Modelled from the spec: DEAP `tools.selTournament(population, k,
tournsize)` — `k` tournaments of size `tournsize`, with replacement. -/
def selTournament {ι : Type} [Inhabited ι] (population : List (Member ι))
    (tournsize : ℕ) : ℕ → RNG → List (Member ι) × RNG
  | 0, r => ([], r)
  | k + 1, r =>
    let c := drawContenders population tournsize r
    let rest := selTournament population tournsize k c.2
    (tournamentBest c.1 :: rest.1, rest.2)

/-- First pass of `GenericAlgorithm._var_and`: for each adjacent pair
`(offspring[i-1], offspring[i])`, `i = 1, 3, 5, ...`, draw one uniform
variate; with probability `cxpb` mate the pair and delete both fitnesses. -/
def crossPairs {ι : Type} (mate : ι → ι → ι × ι) (cxpb : ℚ) :
    List (Member ι) → RNG → List (Member ι) × RNG
  | a :: b :: rest, r =>
    let u := r.next
    let pair : Member ι × Member ι :=
      if u.1 < cxpb then
        let xy := mate a.ind b.ind
        (⟨xy.1, none⟩, ⟨xy.2, none⟩)
      else (a, b)
    let tail := crossPairs mate cxpb rest u.2
    (pair.1 :: pair.2 :: tail.1, tail.2)
  | l, r => (l, r)

/-- Second pass of `GenericAlgorithm._var_and`: for every offspring draw one
uniform variate; with probability `mutpb` mutate it and delete its fitness. -/
def mutateAll {ι : Type} (mutate : ι → ι) (mutpb : ℚ) :
    List (Member ι) → RNG → List (Member ι) × RNG
  | [], r => ([], r)
  | m :: rest, r =>
    let u := r.next
    let m2 : Member ι := if u.1 < mutpb then ⟨mutate m.ind, none⟩ else m
    let tail := mutateAll mutate mutpb rest u.2
    (m2 :: tail.1, tail.2)

/-- `GenericAlgorithm._var_and` (`gp.py` lines 99-116): clone the selected
individuals (value copy, fitness kept) then apply the crossover and the
mutation passes. -/
def varAnd {ι : Type} (tb : GAToolbox ι) (cxpb mutpb : ℚ)
    (population : List (Member ι)) (r : RNG) : List (Member ι) × RNG :=
  let offspring := population.map (fun m => m)
  let c := crossPairs tb.mate cxpb offspring r
  mutateAll tb.mutate mutpb c.1 c.2

/-- One logbook record: `logbook.record(gen=..., nevals=..., **record)` with
the statistics snapshot `record` compiled from the live population. -/
structure LogRecord (σ : Type) where
  gen : ℕ
  nevals : ℕ
  record : σ
deriving DecidableEq

/-- `GenericAlgorithm._header` (`gp.py` lines 83-97): evaluate generation 0
and emit its record.  Returns the population, hall of fame, and the one-entry
logbook. -/
def gaHeader {ι σ : Type} (tb : GAToolbox ι) (stats : List (Member ι) → σ)
    (population : List (Member ι)) (halloffame : Option (HallOfFame ι)) :
    List (Member ι) × Option (HallOfFame ι) × List (LogRecord σ) :=
  let e := evalInvalid tb.evaluate population halloffame
  (e.1, e.2.1, [⟨0, e.2.2.length, stats e.1⟩])

/-- One iteration of the generational loop in `GenericAlgorithm.__call__`:
select `len(population)` individuals, vary them, evaluate the invalid
offspring, replace the population wholesale, and build the generation's
logbook record. -/
def gaStep {ι σ : Type} [Inhabited ι] (tb : GAToolbox ι) (cxpb mutpb : ℚ)
    (stats : List (Member ι) → σ)
    (st : List (Member ι) × Option (HallOfFame ι) × RNG) (gen : ℕ) :
    (List (Member ι) × Option (HallOfFame ι) × RNG) × LogRecord σ :=
  let sel := selTournament st.1 tb.tournsize st.1.length st.2.2
  let off := varAnd tb cxpb mutpb sel.1 sel.2
  let ev := evalInvalid tb.evaluate off.1 st.2.1
  ((ev.1, ev.2.1, off.2), ⟨gen, ev.2.2.length, stats ev.1⟩)

/-- Run `gaStep` once per generation index, accumulating the records. -/
def gaRunGens {ι σ : Type} [Inhabited ι] (tb : GAToolbox ι) (cxpb mutpb : ℚ)
    (stats : List (Member ι) → σ) :
    List ℕ → (List (Member ι) × Option (HallOfFame ι) × RNG) →
    (List (Member ι) × Option (HallOfFame ι) × RNG) × List (LogRecord σ)
  | [], st => (st, [])
  | g :: gs, st =>
    let s1 := gaStep tb cxpb mutpb stats st g
    let rest := gaRunGens tb cxpb mutpb stats gs s1.1
    (rest.1, s1.2 :: rest.2)

/-- `GenericAlgorithm.__call__` (`gp.py` lines 118-145): the header, then
`for gen in range(1, ngen + 1)` generational iterations; the population is
replaced wholesale each generation and one record is appended per
generation.  Returns the final population, the hall of fame (mutated in
place in the source), and the logbook. -/
def gaCall {ι σ : Type} [Inhabited ι] (tb : GAToolbox ι)
    (population : List (Member ι)) (cxpb mutpb : ℚ) (ngen : ℕ)
    (stats : List (Member ι) → σ) (halloffame : Option (HallOfFame ι))
    (r : RNG) :
    List (Member ι) × Option (HallOfFame ι) × List (LogRecord σ) :=
  let h := gaHeader tb stats population halloffame
  let res := gaRunGens tb cxpb mutpb stats (List.range' 1 ngen) (h.1, h.2.1, r)
  (res.1.1, res.1.2.1, h.2.2 ++ res.2)

/-- `GenWithRLIndividuals` (`gp.py` lines 27-58): a pending queue of
externally supplied individuals consumed (from the back, `list.pop()`)
before falling back to the wrapped random tree generator.  `π` stands for
the structural parameters `(pset, min_, max_, type_)`. -/
structure GenWithRLIndividuals (ι π : Type) where
  individuals : List ι
  gp_gen_function : π → ι

/-- `GenWithRLIndividuals.__call__`: pop and return the queue's last element
when the queue is non-empty, otherwise delegate to `gp_gen_function`.  The
third component records whether the random generator was called. -/
def GenWithRLIndividuals.call {ι π : Type} (g : GenWithRLIndividuals ι π)
    (params : π) : ι × GenWithRLIndividuals ι π × Bool :=
  match g.individuals.getLast? with
  | some x => (x, { g with individuals := g.individuals.dropLast }, false)
  | none => (g.gp_gen_function params, g, true)

/-- `GenWithRLIndividuals.insert_front`: prepend a batch, preserving its
internal order, ahead of the existing queue. -/
def GenWithRLIndividuals.insert_front {ι π : Type} (g : GenWithRLIndividuals ι π)
    (individuals : List ι) : GenWithRLIndividuals ι π :=
  { g with individuals := individuals ++ g.individuals }

/-- `GenWithRLIndividuals.insert_back`: append a batch after the queue. -/
def GenWithRLIndividuals.insert_back {ι π : Type} (g : GenWithRLIndividuals ι π)
    (individuals : List ι) : GenWithRLIndividuals ι π :=
  { g with individuals := g.individuals ++ individuals }

/-- `GenWithRLIndividuals.clear`: empty the queue. -/
def GenWithRLIndividuals.clear {ι π : Type} (g : GenWithRLIndividuals ι π) :
    GenWithRLIndividuals ι π :=
  { g with individuals := [] }

/-- The statistics snapshot compiled by the `MultiStatistics` built in
`generic_train`: mean and minimum fitness, mean individual size. -/
structure TrainStats where
  fitness_avg : ℚ
  fitness_min : ℚ
  size_avg : ℚ
deriving DecidableEq

/-- `mstats.compile(population)` as registered in `generic_train`
(`np.mean` / `np.min` over fitness values, `np.mean` over sizes). -/
def mstatsCompile {ι : Type} (sizeFn : ι → ℕ) (population : List (Member ι)) :
    TrainStats :=
  let fits := population.map (fun m => m.fitness.getD 0)
  ⟨mean fits, (fits.min?).getD 0, mean (population.map (fun m => (sizeFn m.ind : ℚ)))⟩

/-- `toolbox.population(n)`: build `n` fresh individuals (invalid fitness)
with the generator, threading the random state. -/
def initPopulation {ι : Type} (genInd : RNG → ι × RNG) :
    ℕ → RNG → List (Member ι) × RNG
  | 0, r => ([], r)
  | n + 1, r =>
    let g := genInd r
    let rest := initPopulation genInd n g.2
    (⟨g.1, none⟩ :: rest.1, rest.2)

/-- `generic_train` (`gp.py` lines 310-342): seed the random source, build
the initial population, run the generational algorithm with the two-tier
statistics, and return `hof[0]` (the best-ever individual, `none` when the
hall of fame came back empty) together with the logbook. -/
def generic_train {ι : Type} [Inhabited ι] (tb : GAToolbox ι)
    (genInd : RNG → ι × RNG) (sizeFn : ι → ℕ) (hof : HallOfFame ι)
    (population_size : ℕ) (p_crossover p_mutate : ℚ) (generations : ℕ)
    (seed : ℕ) : Option (Member ι) × List (LogRecord TrainStats) :=
  let rng : RNG := ⟨seed⟩
  let p := initPopulation genInd population_size rng
  let res := gaCall tb p.1 p_crossover p_mutate generations
    (mstatsCompile sizeFn) (some hof) p.2
  (match res.2.1 with
   | some h => h.items.head?
   | none => none, res.2.2)

/-! ### Lemmas about the metric factory -/

/-- Residual terms of a vector against itself vanish termwise. -/
lemma zipWith_self_eq_zero {α : Type} [Field α] (g : α → α → α) (hg : ∀ a, g a a = 0)
    (y : List α) : List.zipWith g y y = y.map (fun _ => (0 : α)) := by
  induction y with
  | nil => rfl
  | cons a t ih => simp [List.zipWith, ih, hg]

/-- The mean of an all-zero list is zero. -/
lemma mean_map_zero {α : Type} [Field α] (y : List α) :
    mean (y.map (fun _ => (0 : α))) = 0 := by
  have hsum : (y.map (fun _ => (0 : α))).sum = 0 := by simp
  simp [mean, hsum]

/-- A termwise-vanishing residual gives a zero mean. -/
lemma mean_zipWith_self {α : Type} [Field α] (g : α → α → α) (hg : ∀ a, g a a = 0)
    (y : List α) : mean (List.zipWith g y y) = 0 := by
  rw [zipWith_self_eq_zero g hg y, mean_map_zero]

/-- C7: for every supported metric name (`mse`, `rmse`, `nmse`, `nrmse`),
`make_fitness` returns a function matching its reference definition, and
these satisfy `metric(y, y, var_y) = 0` for every metric (zero residual
implies zero loss), `rmse(y, y_hat, var_y) = sqrt(mse(y, y_hat, var_y))`
pointwise, and `nrmse(y, y_hat, var_y) = sqrt(nmse(y, y_hat, var_y))`
pointwise (stated over ℝ with `np.sqrt` as `Real.sqrt`; the hypotheses keep
`np.mean` and the division by `var_y` on their numerically meaningful
domain). -/
theorem make_fitness_supported_metrics (y y_hat : List ℝ) (var_y : ℝ)
    (hy : y ≠ []) (hv : var_y ≠ 0) :
    make_fitness Real.sqrt "mse" = Except.ok mse
    ∧ make_fitness Real.sqrt "rmse" = Except.ok (rmse Real.sqrt)
    ∧ make_fitness Real.sqrt "nmse" = Except.ok nmse
    ∧ make_fitness Real.sqrt "nrmse" = Except.ok (nrmse Real.sqrt)
    ∧ mse y y var_y = 0
    ∧ rmse Real.sqrt y y var_y = 0
    ∧ nmse y y var_y = 0
    ∧ nrmse Real.sqrt y y var_y = 0
    ∧ rmse Real.sqrt y y_hat var_y = Real.sqrt (mse y y_hat var_y)
    ∧ nrmse Real.sqrt y y_hat var_y = Real.sqrt (nmse y y_hat var_y) := by
  have hmse : mse y y var_y = 0 := by
    unfold mse
    exact mean_zipWith_self (fun a b => (a - b) ^ 2) (fun a => by simp) y
  have hnmse : nmse y y var_y = 0 := by
    unfold nmse
    exact mean_zipWith_self (fun a b => (a - b) ^ 2 / var_y) (fun a => by simp) y
  refine ⟨rfl, rfl, rfl, rfl, hmse, ?_, hnmse, ?_, rfl, rfl⟩
  · unfold rmse
    rw [mean_zipWith_self (fun a b => (a - b) ^ 2) (fun a => by simp) y,
      Real.sqrt_zero]
  · unfold nrmse
    rw [mean_zipWith_self (fun a b => (a - b) ^ 2 / var_y) (fun a => by simp) y,
      Real.sqrt_zero]

/-- Witness for C7 at `y = [1]`, `y_hat = [0]`, `var_y = 1`. -/
theorem make_fitness_supported_metrics_witness :
    make_fitness Real.sqrt "mse" = Except.ok mse
    ∧ make_fitness Real.sqrt "rmse" = Except.ok (rmse Real.sqrt)
    ∧ make_fitness Real.sqrt "nmse" = Except.ok nmse
    ∧ make_fitness Real.sqrt "nrmse" = Except.ok (nrmse Real.sqrt)
    ∧ mse [(1 : ℝ)] [1] 1 = 0
    ∧ rmse Real.sqrt [(1 : ℝ)] [1] 1 = 0
    ∧ nmse [(1 : ℝ)] [1] 1 = 0
    ∧ nrmse Real.sqrt [(1 : ℝ)] [1] 1 = 0
    ∧ rmse Real.sqrt [(1 : ℝ)] [0] 1 = Real.sqrt (mse [(1 : ℝ)] [0] 1)
    ∧ nrmse Real.sqrt [(1 : ℝ)] [0] 1 = Real.sqrt (nmse [(1 : ℝ)] [0] 1) := by
  have h1 := make_fitness_supported_metrics [(1 : ℝ)] [0] 1 (by simp) one_ne_zero
  exact ⟨h1.1, h1.2.1, h1.2.2.1, h1.2.2.2.1, h1.2.2.2.2.1, h1.2.2.2.2.2.1,
    h1.2.2.2.2.2.2.1, h1.2.2.2.2.2.2.2.1, h1.2.2.2.2.2.2.2.2.1, h1.2.2.2.2.2.2.2.2.2⟩

/-- C8: for every metric name other than `mse`, `rmse`, `nmse` and `nrmse`,
`make_fitness` fails with the unsupported-metric error instead of returning
a function; being raised inside the pure factory, the failure happens when
the fitness function is built at setup, before any generation runs. -/
theorem make_fitness_unsupported_metric {α : Type} [Field α] (sqrt : α → α)
    (metric : String) (h1 : metric ≠ "mse") (h2 : metric ≠ "rmse")
    (h3 : metric ≠ "nmse") (h4 : metric ≠ "nrmse") :
    make_fitness sqrt metric = Except.error "Metric not recognized." := by
  simp [make_fitness, h1, h2, h3, h4]

/-- Witness for C8 at the unrecognized name `"nmae"`. -/
theorem make_fitness_unsupported_metric_witness :
    make_fitness (α := ℚ) id "nmae" = Except.error "Metric not recognized." :=
  make_fitness_unsupported_metric id "nmae" (by decide) (by decide) (by decide)
    (by decide)

/-- C9: `GenericEvaluate.__init__` binds both its training and its test
fitness functions to the `nmse` metric unconditionally — `make_fitness` is
always called with `"nmse"` and no metric name is configurable — each
partially applied to the target vector and variance of its split. -/
theorem genericEvaluate_binds_nmse (const_opt : (List ℚ → ℚ) → List ℚ → List ℚ)
    (hof : List Individual) (dataset : Dataset) (optimize early_stopping : Bool)
    (threshold : ℚ) :
    make_fitness (α := ℚ) id "nmse" = Except.ok nmse
    ∧ (GenericEvaluate.init const_opt hof dataset optimize early_stopping
        threshold).train_fitness
      = (fun y_hat => nmse dataset.y_train y_hat (variance dataset.y_train))
    ∧ (GenericEvaluate.init const_opt hof dataset optimize early_stopping
        threshold).test_fitness
      = (fun y_hat => nmse dataset.y_test y_hat (variance dataset.y_test)) :=
  ⟨rfl, rfl, rfl⟩

/-! ### Lemmas about constant write-back and slot positions -/

/-- Writing back an empty constant vector leaves the individual unchanged. -/
lemma writeConsts_nil_right (ind : Individual) (idxs : List ℕ) :
    writeConsts ind idxs [] = ind := by
  simp [writeConsts]

/-- Unfolding one write-back step. -/
lemma writeConsts_cons (ind : Individual) (a : ℕ) (as : List ℕ) (c : ℚ)
    (cs : List ℚ) :
    writeConsts ind (a :: as) (c :: cs)
      = writeConsts (ind.set a ⟨"const", c⟩) as cs := rfl

/-- Constant write-back preserves the number of nodes. -/
lemma length_writeConsts :
    ∀ (idxs : List ℕ) (consts : List ℚ) (ind : Individual),
      (writeConsts ind idxs consts).length = ind.length
  | [], _, _ => rfl
  | _ :: _, [], ind => by rw [writeConsts_nil_right]
  | a :: as, c :: cs, ind => by
    rw [writeConsts_cons, length_writeConsts as cs, List.length_set]

/-- Positions outside the (zip-truncated) slot list are untouched. -/
lemma writeConsts_get?_of_not_mem :
    ∀ (idxs : List ℕ) (consts : List ℚ) (ind : Individual) (i : ℕ),
      i ∉ idxs.take consts.length →
      (writeConsts ind idxs consts).get? i = ind.get? i
  | [], _, _, _, _ => rfl
  | _ :: _, [], ind, _, _ => by rw [writeConsts_nil_right]
  | a :: as, c :: cs, ind, i, h => by
    have hmem : i ∉ a :: as.take cs.length := by
      simpa [List.take_cons] using h
    have hia : a ≠ i := fun e => hmem (e ▸ List.mem_cons_self a _)
    have h2 : i ∉ as.take cs.length := fun hm => hmem (List.mem_cons_of_mem a hm)
    rw [writeConsts_cons, writeConsts_get?_of_not_mem as cs _ i h2,
      List.get?_set_ne _ _ hia]

/-- The `k`-th slot position receives the `k`-th constant, tagged `"const"`
(provided the slot positions are distinct and in range). -/
lemma writeConsts_get?_at :
    ∀ (idxs : List ℕ) (consts : List ℚ) (ind : Individual) (k idx : ℕ) (c : ℚ),
      idxs.Nodup → idxs.get? k = some idx → consts.get? k = some c →
      idx < ind.length →
      (writeConsts ind idxs consts).get? idx = some ⟨"const", c⟩
  | [], _, _, k, _, _, _, hidx, _, _ => by simp at hidx
  | _ :: _, [], _, k, _, _, _, _, hc, _ => by simp at hc
  | a :: as, c0 :: cs, ind, 0, idx, c, hnd, hidx, hc, hlt => by
    have ha : idx = a := by simpa using hidx.symm
    have hc0 : c = c0 := by simpa using hc.symm
    subst ha; subst hc0
    have hnotin : idx ∉ as := (List.nodup_cons.mp hnd).1
    have hnt : idx ∉ as.take cs.length := fun hm => hnotin (List.take_subset _ _ hm)
    rw [writeConsts_cons, writeConsts_get?_of_not_mem as cs _ idx hnt,
      List.get?_set_eq_of_lt _ hlt]
  | a :: as, c0 :: cs, ind, k + 1, idx, c, hnd, hidx, hc, hlt => by
    rw [writeConsts_cons]
    exact writeConsts_get?_at as cs _ k idx c (List.nodup_cons.mp hnd).2
      (by simpa using hidx) (by simpa using hc)
      (by rw [List.length_set]; exact hlt)

/-- Membership in the slot list characterizes the const-tagged positions. -/
lemma mem_constIdxs {individual : Individual} {i : ℕ} :
    i ∈ constIdxs individual
      ↔ (individual.get? i).map Node.name = some "const" := by
  unfold constIdxs
  rw [List.mem_filter, List.mem_range]
  constructor
  · rintro ⟨_, h⟩
    exact of_decide_eq_true h
  · intro h
    refine ⟨?_, decide_eq_true h⟩
    cases hg : individual.get? i with
    | none => rw [hg] at h; simp at h
    | some n =>
      have := List.get?_eq_some.mp hg
      exact this.1

/-- Slot positions are within the individual. -/
lemma mem_constIdxs_lt {individual : Individual} {i : ℕ}
    (h : i ∈ constIdxs individual) : i < individual.length := by
  have := (List.mem_filter.mp h).1
  exact List.mem_range.mp this

/-- The slot list has no duplicate positions. -/
lemma constIdxs_nodup (individual : Individual) : (constIdxs individual).Nodup :=
  (List.nodup_range _).filter _

/-- Write-back keeps the `"const"` tag at every originally const-tagged
position. -/
lemma writeConsts_name_pointwise :
    ∀ (idxs : List ℕ) (consts : List ℚ) (ind : Individual) (i : ℕ),
      i ∈ idxs → i < ind.length →
      (ind.get? i).map Node.name = some "const" →
      ((writeConsts ind idxs consts).get? i).map Node.name = some "const"
  | [], _, _, _, hmem, _, _ => absurd hmem (List.not_mem_nil _)
  | _ :: _, [], ind, i, _, _, hname => by rw [writeConsts_nil_right]; exact hname
  | a :: as, c :: cs, ind, i, hmem, hlt, hname => by
    rw [writeConsts_cons]
    by_cases has : i ∈ as
    · refine writeConsts_name_pointwise as cs _ i has
        (by rw [List.length_set]; exact hlt) ?_
      by_cases hia : i = a
      · subst hia
        rw [List.get?_set_eq_of_lt _ hlt]
        rfl
      · rw [List.get?_set_ne _ _ (fun e => hia e.symm)]
        exact hname
    · have hia : i = a := by
        rcases List.mem_cons.mp hmem with h | h
        · exact h
        · exact absurd h has
      subst hia
      have hnt : i ∉ as.take cs.length := fun hm => has (List.take_subset _ _ hm)
      rw [writeConsts_get?_of_not_mem as cs _ i hnt,
        List.get?_set_eq_of_lt _ hlt]
      rfl

/-- Writing the optimizer's output back into the constant slots preserves
the set of const-tagged positions. -/
lemma constIdxs_writeConsts (ind : Individual) (consts : List ℚ) :
    constIdxs (writeConsts ind (constIdxs ind) consts) = constIdxs ind := by
  have hlen : (writeConsts ind (constIdxs ind) consts).length = ind.length :=
    length_writeConsts _ _ _
  show (List.range (writeConsts ind (constIdxs ind) consts).length).filter
      (fun i => decide
        (((writeConsts ind (constIdxs ind) consts).get? i).map Node.name
          = some "const"))
    = (List.range ind.length).filter
      (fun i => decide ((ind.get? i).map Node.name = some "const"))
  rw [hlen]
  apply List.filter_congr
  intro i hi
  rw [List.mem_range] at hi
  by_cases hmem : i ∈ constIdxs ind
  · have hname : (ind.get? i).map Node.name = some "const" :=
      mem_constIdxs.mp hmem
    have hnew := writeConsts_name_pointwise (constIdxs ind) consts ind i hmem
      hi hname
    rw [hnew, hname]
  · have hnot : i ∉ (constIdxs ind).take consts.length :=
      fun hm => hmem (List.take_subset _ _ hm)
    rw [writeConsts_get?_of_not_mem _ _ _ _ hnot]

/-! ### Claims about `GenericEvaluate.__call__` -/

/-- C2: with constant optimization enabled, early stopping enabled, a
non-empty hall of fame, and the incumbent `hof[0]` strictly below the
threshold on the test set, `__call__` returns exactly the sentinel fitness
`(1.0,)` for every individual, leaves the individual untouched, and never
invokes the constant optimizer. -/
theorem evaluate_early_stopping_sentinel (s : GenericEvaluate) (tb : Toolbox)
    (hof0 : Individual) (rest : List Individual) (individual : Individual)
    (htb : s.toolbox = some tb) (hopt : s.optimize = true)
    (hes : s.early_stopping = true) (hhof : s.hof = hof0 :: rest)
    (hlt : GenericEvaluate.finishEval tb hof0 s.X_test s.test_fitness
      < s.threshold) :
    s.call individual = some ⟨1, individual, false, true⟩ := by
  have hhit : s.earlyStopHit tb = true := by
    unfold GenericEvaluate.earlyStopHit
    rw [hes, hhof]
    simp [hlt]
  unfold GenericEvaluate.call
  rw [htb]
  simp [hopt, hhit, hes, hhof]

/-- Witness for C2: a concrete evaluator state whose incumbent test loss `0`
is below the threshold `1`. -/
theorem evaluate_early_stopping_sentinel_witness :
    GenericEvaluate.call
      { toolbox := some ⟨fun _ _ => []⟩
        const_opt := fun _ x0 => x0
        hof := [[]]
        X_train := []
        X_test := []
        y_train := []
        optimize := true
        early_stopping := true
        threshold := 1
        train_fitness := fun _ => 0
        test_fitness := fun _ => 0 } [⟨"x1", 0⟩]
      = some ⟨1, [⟨"x1", 0⟩], false, true⟩ :=
  evaluate_early_stopping_sentinel _ _ _ _ _ rfl rfl rfl rfl
    (by norm_num [GenericEvaluate.finishEval])

/-- C10: two gate facts about `__call__`.  (a) When constant optimization
and early stopping are both enabled and the incumbent is below threshold,
the sentinel `(1.0,)` is returned for every individual, including one with
zero constant slots.  (b) When constant optimization is disabled, the
early-stopping incumbent test is never performed (even with early stopping
enabled) and the real training fitness is always computed. -/
theorem evaluate_optimize_gates :
    (∀ (s : GenericEvaluate) (tb : Toolbox) (hof0 : Individual)
        (rest : List Individual) (individual : Individual),
      s.toolbox = some tb → s.optimize = true → s.early_stopping = true →
      s.hof = hof0 :: rest →
      GenericEvaluate.finishEval tb hof0 s.X_test s.test_fitness < s.threshold →
      constIdxs individual = [] →
      s.call individual = some ⟨1, individual, false, true⟩)
    ∧ (∀ (s : GenericEvaluate) (tb : Toolbox) (individual : Individual),
      s.toolbox = some tb → s.optimize = false →
      s.call individual
        = some ⟨GenericEvaluate.finishEval tb individual s.X_train
            s.train_fitness, individual, false, false⟩) := by
  constructor
  · intro s tb hof0 rest individual htb hopt hes hhof hlt _
    have hhit : s.earlyStopHit tb = true := by
      unfold GenericEvaluate.earlyStopHit
      rw [hes, hhof]
      simp [hlt]
    unfold GenericEvaluate.call
    rw [htb]
    simp [hopt, hhit, hes, hhof]
  · intro s tb individual htb hopt
    unfold GenericEvaluate.call
    rw [htb]
    simp [hopt]

/-- Witness for C10: part (a) on a slot-free individual below an incumbent
threshold, part (b) on an optimizer-disabled state with early stopping on. -/
theorem evaluate_optimize_gates_witness :
    GenericEvaluate.call
      { toolbox := some ⟨fun _ _ => []⟩
        const_opt := fun _ x0 => x0
        hof := [[]]
        X_train := []
        X_test := []
        y_train := []
        optimize := true
        early_stopping := true
        threshold := 1
        train_fitness := fun _ => 0
        test_fitness := fun _ => 0 } [⟨"x1", 0⟩]
      = some ⟨1, [⟨"x1", 0⟩], false, true⟩
    ∧ GenericEvaluate.call
      { toolbox := some ⟨fun _ _ => []⟩
        const_opt := fun _ x0 => x0
        hof := [[]]
        X_train := []
        X_test := []
        y_train := []
        optimize := false
        early_stopping := true
        threshold := 1
        train_fitness := fun _ => 7
        test_fitness := fun _ => 0 } [⟨"const", 2⟩]
      = some ⟨7, [⟨"const", 2⟩], false, false⟩ :=
  ⟨evaluate_optimize_gates.1 _ _ _ _ _ rfl rfl rfl rfl
      (by norm_num [GenericEvaluate.finishEval]) (by decide),
    evaluate_optimize_gates.2 _ _ _ rfl rfl⟩

/-- C3: with constant optimization enabled and no early-stop short-circuit,
for an individual with at least one constant slot, `__call__` invokes the
constant optimizer started from the all-ones vector of length equal to the
number of constant slots, writes the returned values back in place into
exactly those slot positions (tagged `"const"`), leaves every other node
unchanged, and preserves the set of const-tagged positions. -/
theorem evaluate_const_optimization (s : GenericEvaluate) (tb : Toolbox)
    (individual : Individual) (res : EvalResult)
    (htb : s.toolbox = some tb) (hopt : s.optimize = true)
    (hstop : s.earlyStopHit tb = false)
    (hconst : constIdxs individual ≠ [])
    (hres : s.call individual = some res) :
    res.optimizerCalled = true
    ∧ res.individual = writeConsts individual (constIdxs individual)
        (s.const_opt (s.constObjective tb individual)
          (List.replicate (constIdxs individual).length 1))
    ∧ (∀ (k idx : ℕ) (c : ℚ),
        (constIdxs individual).get? k = some idx →
        (s.const_opt (s.constObjective tb individual)
          (List.replicate (constIdxs individual).length 1)).get? k = some c →
        res.individual.get? idx = some ⟨"const", c⟩)
    ∧ (∀ i : ℕ, i ∉ constIdxs individual →
        res.individual.get? i = individual.get? i)
    ∧ constIdxs res.individual = constIdxs individual := by
  have hempty : (constIdxs individual).isEmpty = false := by
    cases hci : constIdxs individual with
    | nil => exact absurd hci hconst
    | cons a l => rfl
  unfold GenericEvaluate.call at hres
  rw [htb] at hres
  simp [hopt, hstop, hempty] at hres
  set consts := s.const_opt (s.constObjective tb individual)
    (List.replicate (constIdxs individual).length 1) with hconsts
  have hind : res.individual = writeConsts individual (constIdxs individual) consts := by
    rw [← hres]
  have hcalled : res.optimizerCalled = true := by rw [← hres]
  refine ⟨hcalled, hind, ?_, ?_, ?_⟩
  · intro k idx c hidx hc
    rw [hind]
    have hlt : idx < individual.length :=
      mem_constIdxs_lt (List.get?_mem hidx)
    exact writeConsts_get?_at _ _ _ k idx c (constIdxs_nodup individual) hidx hc hlt
  · intro i hi
    rw [hind]
    exact writeConsts_get?_of_not_mem _ _ _ i
      (fun hm => hi (List.take_subset _ _ hm))
  · rw [hind]
    exact constIdxs_writeConsts individual consts

/-- Witness for C3: one constant slot, identity optimizer (returns the
all-ones start vector). -/
theorem evaluate_const_optimization_witness :
    (⟨0, [⟨"const", 1⟩], true, false⟩ : EvalResult).optimizerCalled = true
    ∧ constIdxs (⟨0, [⟨"const", 1⟩], true, false⟩ : EvalResult).individual
      = constIdxs [⟨"const", 5⟩] := by
  have h := evaluate_const_optimization
    { toolbox := some ⟨fun _ _ => []⟩
      const_opt := fun _ x0 => x0
      hof := []
      X_train := []
      X_test := []
      y_train := []
      optimize := true
      early_stopping := false
      threshold := 1
      train_fitness := fun _ => 0
      test_fitness := fun _ => 0 } ⟨fun _ _ => []⟩ [⟨"const", 5⟩]
    ⟨0, [⟨"const", 1⟩], true, false⟩ rfl rfl rfl (by decide) (by decide)
  exact ⟨h.1, h.2.2.2.2⟩

/-! ### Lemmas about `_eval` and the hall of fame -/

/-- `HallOfFame.update` only ever stores members drawn from its previous
items or from the population it is updated with; in particular, updating
with an all-valid population keeps every stored fitness valid. -/
lemma hallOfFame_update_valid {ι : Type} (h : HallOfFame ι)
    (population : List (Member ι))
    (hh : ∀ m ∈ h.items, m.fitness.isSome)
    (hp : ∀ m ∈ population, m.fitness.isSome) :
    ∀ m ∈ (h.update population).items, m.fitness.isSome := by
  intro m hm
  unfold HallOfFame.update at hm
  have hm2 := List.take_subset _ _ hm
  rw [List.mem_insertionSort] at hm2
  rcases List.mem_append.mp hm2 with hmem | hmem
  · exact hh m hmem
  · exact hp m hmem

/-- The population returned by `_eval` has the same length. -/
lemma length_evalInvalid_fst {ι : Type} (evaluate : ι → ℚ)
    (population : List (Member ι)) (halloffame : Option (HallOfFame ι)) :
    (evalInvalid evaluate population halloffame).1.length = population.length := by
  simp [evalInvalid]

/-- C1: for every population passed to `GenericAlgorithm._eval`, exactly the
members whose fitness is invalid on entry are (re)evaluated — valid members
come back untouched, invalid members come back with `evaluate` applied —
the third returned value has length equal to the number of
originally-invalid members, afterwards every member of the returned
population has valid fitness, and the supplied hall of fame is updated from
the full already-evaluated population, so it never contains a member with
invalid fitness. -/
theorem eval_invalid_spec {ι : Type} (evaluate : ι → ℚ)
    (population : List (Member ι)) (h : HallOfFame ι)
    (hvalid : ∀ m ∈ h.items, m.fitness.isSome) :
    (evalInvalid evaluate population (some h)).2.2.length
      = (population.filter (fun m => m.fitness.isNone)).length
    ∧ (∀ m ∈ (evalInvalid evaluate population (some h)).1, m.fitness.isSome)
    ∧ (evalInvalid evaluate population (some h)).1.length = population.length
    ∧ (∀ (i : ℕ) (m : Member ι), population.get? i = some m →
        (m.fitness.isSome →
          (evalInvalid evaluate population (some h)).1.get? i = some m)
        ∧ (m.fitness = none →
          (evalInvalid evaluate population (some h)).1.get? i
            = some { m with fitness := some (evaluate m.ind) }))
    ∧ (evalInvalid evaluate population (some h)).2.1
        = some (h.update (evalInvalid evaluate population (some h)).1)
    ∧ (∀ m ∈ (h.update (evalInvalid evaluate population (some h)).1).items,
        m.fitness.isSome) := by
  have hall : ∀ m ∈ (evalInvalid evaluate population (some h)).1, m.fitness.isSome := by
    intro m hm
    simp only [evalInvalid, List.mem_map] at hm
    obtain ⟨m0, _, hm0⟩ := hm
    cases hf : m0.fitness with
    | none => rw [hf] at hm0; rw [← hm0]; rfl
    | some v => rw [hf] at hm0; rw [← hm0, hf]; rfl
  refine ⟨?_, hall, length_evalInvalid_fst evaluate population (some h), ?_, rfl, ?_⟩
  · simp [evalInvalid]
  · intro i m hget
    constructor
    · intro hsome
      show ((population.map _).get? i) = some m
      rw [List.get?_map, hget]
      cases hf : m.fitness with
      | none => rw [hf] at hsome; simp at hsome
      | some v => simp [hf]
    · intro hnone
      show ((population.map _).get? i) = some _
      rw [List.get?_map, hget]
      simp [hnone]
  · exact hallOfFame_update_valid h _ hvalid hall

/-- Witness for C1: a two-member population with one invalid fitness. -/
theorem eval_invalid_spec_witness :
    (evalInvalid (fun n : ℕ => (n : ℚ)) [⟨3, none⟩, ⟨4, some 2⟩]
        (some ⟨1, []⟩)).2.2.length
      = (([⟨3, none⟩, ⟨4, some 2⟩] : List (Member ℕ)).filter
          (fun m => m.fitness.isNone)).length
    ∧ (∀ m ∈ (HallOfFame.update ⟨1, []⟩
        (evalInvalid (fun n : ℕ => (n : ℚ)) [⟨3, none⟩, ⟨4, some 2⟩]
          (some ⟨1, []⟩)).1).items, m.fitness.isSome) := by
  have h := eval_invalid_spec (fun n : ℕ => (n : ℚ)) [⟨3, none⟩, ⟨4, some 2⟩]
    ⟨1, []⟩ (by simp)
  exact ⟨h.1, h.2.2.2.2.2⟩

/-- C5: the injection generator pops and returns the queue's last element
without calling the random generator while the queue is non-empty, and
delegates to the random generator on an empty queue; `insert_front`
prepends and `insert_back` appends a batch preserving its internal order;
after `clear`, a generate call delegates to the random generator, so it
never dispenses a previously queued individual (whenever the freshly
generated individual is distinct from the previously queued ones). -/
theorem genWithRL_spec {ι π : Type} (g : GenWithRLIndividuals ι π) (params : π)
    (batch : List ι) :
    (∀ x, g.individuals.getLast? = some x →
      g.call params = (x, { g with individuals := g.individuals.dropLast }, false))
    ∧ (g.individuals = [] →
      g.call params = (g.gp_gen_function params, g, true))
    ∧ (g.insert_front batch).individuals = batch ++ g.individuals
    ∧ (g.insert_back batch).individuals = g.individuals ++ batch
    ∧ (g.clear.call params).2.2 = true
    ∧ (g.clear.call params).1 = g.gp_gen_function params
    ∧ (g.gp_gen_function params ∉ g.individuals →
        (g.clear.call params).1 ∉ g.individuals) := by
  refine ⟨?_, ?_, rfl, rfl, rfl, rfl, ?_⟩
  · intro x hx
    unfold GenWithRLIndividuals.call
    rw [hx]
  · intro he
    unfold GenWithRLIndividuals.call
    rw [he]
    rfl
  · intro hfresh
    exact hfresh

/-- Witness for C5 on a two-element queue of naturals. -/
theorem genWithRL_spec_witness :
    GenWithRLIndividuals.call (⟨[1, 2], fun _ => 7⟩ : GenWithRLIndividuals ℕ Unit) ()
      = (2, ⟨[1], fun _ => 7⟩, false)
    ∧ GenWithRLIndividuals.call (⟨[], fun _ => 7⟩ : GenWithRLIndividuals ℕ Unit) ()
      = (7, ⟨[], fun _ => 7⟩, true)
    ∧ (GenWithRLIndividuals.call
        ((⟨[1, 2], fun _ => 7⟩ : GenWithRLIndividuals ℕ Unit).clear) ()).1 ∉ [1, 2] :=
  ⟨(genWithRL_spec ⟨[1, 2], fun _ => 7⟩ () []).1 2 rfl,
    (genWithRL_spec ⟨[], fun _ => 7⟩ () []).2.1 rfl,
    (genWithRL_spec ⟨[1, 2], fun _ => 7⟩ () []).2.2.2.2.2.2 (by decide)⟩

/-! ### Lemmas about the generational loop -/

/-- Tournament selection returns exactly `k` members. -/
lemma length_selTournament {ι : Type} [Inhabited ι] (population : List (Member ι))
    (tournsize : ℕ) : ∀ (k : ℕ) (r : RNG),
      (selTournament population tournsize k r).1.length = k
  | 0, _ => rfl
  | k + 1, r => by
    simp [selTournament, length_selTournament population tournsize k]

/-- The crossover pass preserves the number of offspring. -/
lemma length_crossPairs {ι : Type} (mate : ι → ι → ι × ι) (cxpb : ℚ) :
    ∀ (l : List (Member ι)) (r : RNG),
      (crossPairs mate cxpb l r).1.length = l.length
  | [], _ => rfl
  | [_], _ => rfl
  | _ :: _ :: rest, r => by
    simp [crossPairs, length_crossPairs mate cxpb rest]

/-- The mutation pass preserves the number of offspring. -/
lemma length_mutateAll {ι : Type} (mutate : ι → ι) (mutpb : ℚ) :
    ∀ (l : List (Member ι)) (r : RNG),
      (mutateAll mutate mutpb l r).1.length = l.length
  | [], _ => rfl
  | _ :: rest, r => by
    simp [mutateAll, length_mutateAll mutate mutpb rest]

/-- `_var_and` preserves the number of offspring. -/
lemma length_varAnd {ι : Type} (tb : GAToolbox ι) (cxpb mutpb : ℚ)
    (population : List (Member ι)) (r : RNG) :
    (varAnd tb cxpb mutpb population r).1.length = population.length := by
  simp [varAnd, length_mutateAll, length_crossPairs]

/-- One generation step preserves the population size. -/
lemma gaStep_pop_length {ι σ : Type} [Inhabited ι] (tb : GAToolbox ι)
    (cxpb mutpb : ℚ) (stats : List (Member ι) → σ)
    (st : List (Member ι) × Option (HallOfFame ι) × RNG) (gen : ℕ) :
    ((gaStep tb cxpb mutpb stats st gen).1).1.length = st.1.length := by
  simp [gaStep, length_evalInvalid_fst, length_varAnd, length_selTournament]

/-- The loop appends exactly one record per generation index. -/
lemma gaRunGens_log_length {ι σ : Type} [Inhabited ι] (tb : GAToolbox ι)
    (cxpb mutpb : ℚ) (stats : List (Member ι) → σ) :
    ∀ (gs : List ℕ) (st : List (Member ι) × Option (HallOfFame ι) × RNG),
      (gaRunGens tb cxpb mutpb stats gs st).2.length = gs.length
  | [], _ => rfl
  | _ :: gs, st => by
    simp [gaRunGens, gaRunGens_log_length tb cxpb mutpb stats gs]

/-- The loop preserves the population size. -/
lemma gaRunGens_pop_length {ι σ : Type} [Inhabited ι] (tb : GAToolbox ι)
    (cxpb mutpb : ℚ) (stats : List (Member ι) → σ) :
    ∀ (gs : List ℕ) (st : List (Member ι) × Option (HallOfFame ι) × RNG),
      ((gaRunGens tb cxpb mutpb stats gs st).1).1.length = st.1.length
  | [], _ => rfl
  | g :: gs, st => by
    rw [show gaRunGens tb cxpb mutpb stats (g :: gs) st
        = ((gaRunGens tb cxpb mutpb stats gs
            (gaStep tb cxpb mutpb stats st g).1).1,
          (gaStep tb cxpb mutpb stats st g).2
            :: (gaRunGens tb cxpb mutpb stats gs
              (gaStep tb cxpb mutpb stats st g).1).2) from rfl]
    rw [gaRunGens_pop_length tb cxpb mutpb stats gs, gaStep_pop_length]

/-- The `i`-th record appended by the loop carries the `i`-th generation
index. -/
lemma gaRunGens_gen_at {ι σ : Type} [Inhabited ι] (tb : GAToolbox ι)
    (cxpb mutpb : ℚ) (stats : List (Member ι) → σ) :
    ∀ (gs : List ℕ) (st : List (Member ι) × Option (HallOfFame ι) × RNG) (i : ℕ),
      ((gaRunGens tb cxpb mutpb stats gs st).2.get? i).map LogRecord.gen
        = gs.get? i
  | [], _, _ => by simp [gaRunGens]
  | g :: gs, st, 0 => by simp [gaRunGens, gaStep]
  | g :: gs, st, i + 1 => by
    rw [show (gaRunGens tb cxpb mutpb stats (g :: gs) st).2
        = (gaStep tb cxpb mutpb stats st g).2
          :: (gaRunGens tb cxpb mutpb stats gs
            (gaStep tb cxpb mutpb stats st g).1).2 from rfl]
    rw [List.get?_cons_succ]
    exact gaRunGens_gen_at tb cxpb mutpb stats gs
      (gaStep tb cxpb mutpb stats st g).1 i

/-- `List.range' s n` indexes to `s + i`. -/
lemma get?_range' : ∀ (s n i : ℕ),
    (List.range' s n).get? i = if i < n then some (s + i) else none
  | _, 0, i => by simp [List.range']
  | s, n + 1, 0 => by simp [List.range']
  | s, n + 1, i + 1 => by
    rw [List.range']
    show (List.range' (s + 1) n).get? i = _
    rw [get?_range' (s + 1) n i]
    by_cases h : i < n
    · have e : s + 1 + i = s + (i + 1) := by omega
      simp [h, Nat.succ_lt_succ h, e]
    · have h2 : ¬ i + 1 < n + 1 := by omega
      simp [h, h2]

/-- C6: the generational loop of `GenericAlgorithm.__call__` runs exactly
the configured number of generations — the logbook holds the generation-0
record plus exactly one record per generation, the `i`-th carrying
generation index `i` — the population is wholesale replaced each generation
with its size held fixed, and each step's record carries as `nevals` the
number of offspring whose fitness was invalid after variation (the
individuals evaluated that generation). -/
theorem gaCall_generations {ι σ : Type} [Inhabited ι] (tb : GAToolbox ι)
    (population : List (Member ι)) (cxpb mutpb : ℚ) (ngen : ℕ)
    (stats : List (Member ι) → σ) (halloffame : Option (HallOfFame ι))
    (r : RNG) :
    (gaCall tb population cxpb mutpb ngen stats halloffame r).2.2.length
      = ngen + 1
    ∧ (∀ i : ℕ,
        ((gaCall tb population cxpb mutpb ngen stats halloffame r).2.2.get? i).map
            LogRecord.gen
          = if i < ngen + 1 then some i else none)
    ∧ (gaCall tb population cxpb mutpb ngen stats halloffame r).1.length
      = population.length
    ∧ (∀ (st : List (Member ι) × Option (HallOfFame ι) × RNG) (gen : ℕ),
        (gaStep tb cxpb mutpb stats st gen).2.gen = gen
        ∧ (gaStep tb cxpb mutpb stats st gen).2.nevals
          = ((varAnd tb cxpb mutpb
              (selTournament st.1 tb.tournsize st.1.length st.2.2).1
              (selTournament st.1 tb.tournsize st.1.length st.2.2).2).1.filter
              (fun m => m.fitness.isNone)).length
        ∧ ((gaStep tb cxpb mutpb stats st gen).1).1.length = st.1.length) := by
  refine ⟨?_, ?_, ?_, ?_⟩
  · show (_ :: (gaRunGens tb cxpb mutpb stats (List.range' 1 ngen) _).2).length
      = ngen + 1
    rw [List.length_cons, gaRunGens_log_length]
    rw [List.length_range']
  · intro i
    show (((_ : LogRecord σ)
        :: (gaRunGens tb cxpb mutpb stats (List.range' 1 ngen) _).2).get? i).map
        LogRecord.gen = _
    cases i with
    | zero => simp [gaHeader]
    | succ j =>
      rw [List.get?_cons_succ, gaRunGens_gen_at, get?_range']
      by_cases hj : j < ngen
      · have e : 1 + j = j + 1 := by omega
        simp [hj, Nat.succ_lt_succ hj, e]
      · have h2 : ¬ j + 1 < ngen + 1 := by omega
        simp [hj, h2]
  · show ((gaRunGens tb cxpb mutpb stats (List.range' 1 ngen) _).1).1.length
      = population.length
    rw [gaRunGens_pop_length]
    exact length_evalInvalid_fst tb.evaluate population halloffame
  · intro st gen
    refine ⟨rfl, ?_, gaStep_pop_length tb cxpb mutpb stats st gen⟩
    simp [gaStep, evalInvalid]

/-- Witness for C6 instantiated on a one-member population over ℕ. -/
theorem gaCall_generations_witness :
    (gaCall (⟨fun n => (n : ℚ), fun a b => (a, b), fun a => a, 3⟩ : GAToolbox ℕ)
        [⟨5, none⟩] (1 / 2) (1 / 10) 2 (fun _ => ()) none ⟨0⟩).2.2.length = 2 + 1
    ∧ (gaCall (⟨fun n => (n : ℚ), fun a b => (a, b), fun a => a, 3⟩ : GAToolbox ℕ)
        [⟨5, none⟩] (1 / 2) (1 / 10) 2 (fun _ => ()) none ⟨0⟩).1.length
      = [(⟨5, none⟩ : Member ℕ)].length := by
  have h := gaCall_generations
    (⟨fun n => (n : ℚ), fun a b => (a, b), fun a => a, 3⟩ : GAToolbox ℕ)
    [⟨5, none⟩] (1 / 2) (1 / 10) 2 (fun _ => ()) none ⟨0⟩
  exact ⟨h.1, h.2.2.1⟩

/-- C4: two complete training runs with identical seed, identical
configuration (population size, probabilities, generation count) and the
same deterministic constant-optimizer-backed toolbox produce identical
logbooks and an identical best individual — all randomness in the embedding
is derived from the seed threaded through `generic_train`. -/
theorem generic_train_deterministic {ι : Type} [Inhabited ι] (tb : GAToolbox ι)
    (genInd : RNG → ι × RNG) (sizeFn : ι → ℕ) (hof : HallOfFame ι)
    (population_size : ℕ) (p_crossover p_mutate : ℚ) (generations seed : ℕ)
    (r1 r2 : Option (Member ι) × List (LogRecord TrainStats))
    (h1 : r1 = generic_train tb genInd sizeFn hof population_size p_crossover
      p_mutate generations seed)
    (h2 : r2 = generic_train tb genInd sizeFn hof population_size p_crossover
      p_mutate generations seed) :
    r1.2 = r2.2 ∧ r1.1 = r2.1 := by
  subst h1
  subst h2
  exact ⟨rfl, rfl⟩

/-- Witness for C4: two literal invocations of the same seeded run. -/
theorem generic_train_deterministic_witness :
    (generic_train (⟨fun n => (n : ℚ), fun a b => (a, b), fun a => a, 3⟩ : GAToolbox ℕ)
        (fun r => r.nextNat 5) (fun _ => 1) ⟨1, []⟩ 2 (1 / 2) (1 / 10) 1 0).2
      = (generic_train (⟨fun n => (n : ℚ), fun a b => (a, b), fun a => a, 3⟩ : GAToolbox ℕ)
        (fun r => r.nextNat 5) (fun _ => 1) ⟨1, []⟩ 2 (1 / 2) (1 / 10) 1 0).2
    ∧ (generic_train (⟨fun n => (n : ℚ), fun a b => (a, b), fun a => a, 3⟩ : GAToolbox ℕ)
        (fun r => r.nextNat 5) (fun _ => 1) ⟨1, []⟩ 2 (1 / 2) (1 / 10) 1 0).1
      = (generic_train (⟨fun n => (n : ℚ), fun a b => (a, b), fun a => a, 3⟩ : GAToolbox ℕ)
        (fun r => r.nextNat 5) (fun _ => 1) ⟨1, []⟩ 2 (1 / 2) (1 / 10) 1 0).1 :=
  generic_train_deterministic
    (⟨fun n => (n : ℚ), fun a b => (a, b), fun a => a, 3⟩ : GAToolbox ℕ)
    (fun r => r.nextNat 5) (fun _ => 1) ⟨1, []⟩ 2 (1 / 2) (1 / 10) 1 0 _ _ rfl rfl

end DSR






